import Mathlib

/-!
Shallow embedding of `src/preprocessing.py`, an XYZ-trajectory parser.

Conventions of the embedding:
* Python strings are Lean `String`; whitespace handling (`str.split()`,
  `str.strip()` as applied implicitly by `int`/`float`) is reimplemented on
  `List Char` so that all definitions evaluate by kernel reduction.
* Python `float` values are modelled as exact rationals (`ℚ`); IEEE
  double rounding is outside the model.  Numeric literals are modelled as
  sign, integer digits, optional fractional digits and optional decimal
  exponent (the underscore digit separators and `inf` and `nan` literals
  accepted by Python are not modelled; they never occur in XYZ data).
* Fallible Python code (raised `ValueError` and `AssertionError`
  and `IndexError`) is modelled with `Except`.
* The file content is a `List String` of lines, mirroring `readlines()`.
-/

namespace Preprocessing

/-- Whitespace test used by `str.split()` and by the implicit stripping in
`int(...)` and `float(...)`. -/
def isWS (c : Char) : Bool := c.isWhitespace

/-- Strip leading and trailing whitespace, as Python `str.strip()` does
before `int(...)` or `float(...)` parse a token. -/
def trimChars (cs : List Char) : List Char :=
  ((cs.dropWhile isWS).reverse.dropWhile isWS).reverse

/-- Tokenizer behind Python `str.split()` with no argument: runs of
non-whitespace characters, with leading, trailing and repeated whitespace
dropped. `acc` holds the current token reversed. -/
def splitWSAux : List Char → List Char → List (List Char)
  | [], acc => if acc = [] then [] else [acc.reverse]
  | c :: cs, acc =>
    if isWS c then
      if acc = [] then splitWSAux cs []
      else acc.reverse :: splitWSAux cs []
    else splitWSAux cs (c :: acc)

/-- Python `line.split()`. -/
def pySplit (s : String) : List String :=
  (splitWSAux s.data []).map (fun cs => String.mk cs)

/-- Decimal digit value of a character, when it is a digit. -/
def digitVal (c : Char) : Option Nat :=
  if c.isDigit then some (c.toNat - 48) else none

/-- All-digits parse of a character run. -/
def charsToDigits : List Char → Option (List Nat)
  | [] => some []
  | c :: cs =>
    match digitVal c, charsToDigits cs with
    | some d, some ds => some (d :: ds)
    | _, _ => none

/-- Value of a digit run read most-significant first. -/
def digitsToNat (ds : List Nat) : Nat :=
  ds.foldl (fun a d => 10 * a + d) 0

/-- Value of a fractional digit run `d₁d₂…` as `0.d₁d₂…`. -/
def fracValue (ds : List Nat) : ℚ :=
  ds.foldr (fun d a => ((d : ℚ) + a) / 10) 0

/-- Split a character run at the first occurrence of a marker character;
the second component is `none` when the marker does not occur. -/
def splitAtChar (m : Char) : List Char → List Char × Option (List Char)
  | [] => ([], none)
  | c :: cs =>
    if c = m then ([], some cs)
    else
      let r := splitAtChar m cs
      (c :: r.1, r.2)

/-- Structure of a Python numeric literal: sign, integer digits, optional
fractional digits, optional decimal exponent. -/
structure NumLit where
  sign : Bool
  ip : List Nat
  fp : Option (List Nat)
  ex : Option Int
deriving DecidableEq, Repr

/-- Sign and remainder of a literal body. -/
def splitSign : List Char → Bool × List Char
  | '-' :: cs => (true, cs)
  | '+' :: cs => (false, cs)
  | cs => (false, cs)

/-- Parse the signed-digits exponent part after `e`. -/
def parseExpPart (cs : List Char) : Option Int :=
  let sd := splitSign cs
  match charsToDigits sd.2 with
  | some ds =>
    if ds = [] then none
    else some (if sd.1 then -(digitsToNat ds : Int) else (digitsToNat ds : Int))
  | none => none

/-- Parse a numeric literal the way Python `float(...)` lexes a stripped
token: `[sign] (digits [. digits] | digits . | . digits) [e [sign] digits]`. -/
def parseNumLit (s : String) : Option NumLit :=
  let cs := trimChars s.data
  let sb := splitSign cs
  let eSplit := splitAtChar 'e' sb.2
  let eSplitU := splitAtChar 'E' sb.2
  let mant := if (eSplit.2).isSome then eSplit.1 else eSplitU.1
  let epart := if (eSplit.2).isSome then eSplit.2 else eSplitU.2
  let dotSplit := splitAtChar '.' mant
  match charsToDigits dotSplit.1 with
  | none => none
  | some ip =>
    let fpOk : Option (Option (List Nat)) :=
      match dotSplit.2 with
      | none => some none
      | some f =>
        match charsToDigits f with
        | none => none
        | some fd => some (some fd)
    match fpOk with
    | none => none
    | some fp =>
      -- the mantissa must carry at least one digit
      if ip.isEmpty && (match fp with | some f => f.isEmpty | none => true) then none
      else
        match epart with
        | none => some ⟨sb.1, ip, fp, none⟩
        | some ecs =>
          match parseExpPart ecs with
          | none => none
          | some e => some ⟨sb.1, ip, fp, some e⟩

/-- Integer value of a literal, ignoring fraction and exponent. -/
def NumLit.intValue (l : NumLit) : Int :=
  if l.sign then -(digitsToNat l.ip : Int) else (digitsToNat l.ip : Int)

/-- Exact rational value of a literal. -/
def NumLit.ratValue (l : NumLit) : ℚ :=
  let m : ℚ := (digitsToNat l.ip : ℚ) +
    (match l.fp with | none => 0 | some f => fracValue f)
  let e : ℚ := match l.ex with | none => 1 | some e => (10 : ℚ) ^ e
  if l.sign then -(m * e) else m * e

/-- Python `int(s)` on a string: accepts only `[sign] digits`. -/
def pyIntOfString (s : String) : Option Int :=
  match parseNumLit s with
  | none => none
  | some l =>
    if l.fp.isSome ∨ l.ex.isSome then none else some l.intValue

/-- Python `float(s)` on a string, as an exact rational. -/
def pyFloatOfString (s : String) : Option ℚ :=
  (parseNumLit s).map NumLit.ratValue

/-- Error kinds raised by `cast_positive_int` (`preprocessing.py` lines
23-35), one per `raise ValueError` site. -/
inductive CastError where
  | notAnInteger : String → CastError
  | notIntegral : CastError
  | zeroValue : CastError
  | negativeValue : CastError
deriving DecidableEq, Repr

/-- Embedding of `cast_positive_int` (lines 15-37) applied to a string
token.  `int(in_string)` fails on any literal with a decimal point or an
exponent, hence the first two error branches; when it succeeds,
`float(in_string)` has the same exact value, so the `int != float`
comparison is also embedded (over exact rationals it never fires on a
string). -/
def cast_positive_int (s : String) : Except CastError Int :=
  match parseNumLit s with
  | none => .error (.notAnInteger s)
  | some l =>
    if l.fp.isSome ∨ l.ex.isSome then .error (.notAnInteger s)
    else if (l.intValue : ℚ) ≠ l.ratValue then .error .notIntegral
    else if l.intValue = 0 then .error .zeroValue
    else if l.intValue < 0 then .error .negativeValue
    else .ok l.intValue

/-- Python `int(x)` on a float: truncation toward zero. -/
def pytrunc (q : ℚ) : Int :=
  if 0 ≤ q then ⌊q⌋ else -⌊-q⌋

/-- Embedding of `cast_positive_int` applied to a numeric (float) input,
as at line 106 where it receives `len(lines) / (num_atoms + 2)`:
`int(x)` truncates and never raises, so the first branch of the Python
function is the `int(x) != float(x)` comparison. -/
def cast_positive_int_rat (q : ℚ) : Except CastError Int :=
  let n := pytrunc q
  if (n : ℚ) ≠ q then .error .notIntegral
  else if n = 0 then .error .zeroValue
  else if n < 0 then .error .negativeValue
  else .ok n

/-- Failure kinds of the parser `XYZFile.parse_xyz_file` and its helpers:
one constructor per distinct Python raise site (uncaught `ValueError`
from `cast_positive_int` is wrapped in `castError`; `AssertionError`
sites and `IndexError` and numpy `ValueError` sites get their own kinds). -/
inductive ParseError where
  | wrongFormat : ParseError
  | castError : CastError → ParseError
  | indexError : ParseError
  | labelCountMismatch : ParseError
  | frameAtomCountMismatch : Nat → Int → Int → ParseError
  | numericParseError : String → ParseError
  | reshapeError : ParseError
  | broadcastError : ParseError
  | truncatedFrame : ParseError
deriving DecidableEq, Repr

/-- Loop body of `parse_atom_labels` (lines 63-69).  `seen` is the
`defaultdict(lambda: 0)`.  Faithful to the source, the variable `atom` is
rebound to the tagged name before `seen_atoms[atom] += 1`, so the
increment targets the tagged key (for example `C0`), not the element key. -/
def label_loop (seen : String → Nat) : List String → Except ParseError (List String)
  | [] => .ok []
  | line :: rest =>
    match (pySplit line).head? with
    | none => .error .indexError
    | some atom0 =>
      let atom := atom0 ++ toString (seen atom0)
      let seen2 := Function.update seen atom (seen atom + 1)
      match label_loop seen2 rest with
      | .error e => .error e
      | .ok labs => .ok ([atom ++ "_x", atom ++ "_y", atom ++ "_z"] ++ labs)

/-- Embedding of `XYZFile.parse_atom_labels` (lines 55-71): builds the
three axis labels per atom line, then asserts that `3 * num_atoms` labels
were produced. -/
def parse_atom_labels (num_atoms : Nat) (lines : List String) : Except ParseError (List String) :=
  match label_loop (fun _ => 0) lines with
  | .error e => .error e
  | .ok atom_labels =>
    if atom_labels.length = num_atoms * 3 then .ok atom_labels
    else .error .labelCountMismatch

/-- Tokens after the first on a line: `line.split()[1:]` (line 83). -/
def lineTokens (line : String) : List String :=
  (pySplit line).drop 1

/-- Embedding of `np.asfarray(elements, float)` (line 84) over a token
list: parse every token as a float, failing on the first malformed one. -/
def pyFloats : List String → Except ParseError (List ℚ)
  | [] => .ok []
  | t :: ts =>
    match pyFloatOfString t with
    | none => .error (.numericParseError t)
    | some q =>
      match pyFloats ts with
      | .error e => .error e
      | .ok qs => .ok (q :: qs)

/-- Embedding of `np.array(frame).reshape(-1, 3)` (line 86): group the
flat value list into rows of three, failing when the length is not a
multiple of three. -/
def reshape3 : List ℚ → Except ParseError (List (ℚ × ℚ × ℚ))
  | [] => .ok []
  | x :: y :: z :: rest =>
    match reshape3 rest with
    | .error e => .error e
    | .ok rows => .ok ((x, y, z) :: rows)
  | _ => .error .reshapeError

/-- Modelled from the spec: `rmsd.centroid` belongs to the external
`rmsd` library (an out-of-scope collaborator), described as "the
arithmetic mean position across all N atoms", per axis, unweighted.
Division by zero in ℚ yields 0, so the centroid of an empty frame is the
origin. -/
def centroid (rows : List (ℚ × ℚ × ℚ)) : ℚ × ℚ × ℚ :=
  ((rows.map (fun r => r.1)).sum / rows.length,
   (rows.map (fun r => r.2.1)).sum / rows.length,
   (rows.map (fun r => r.2.2)).sum / rows.length)

/-- The recentering transform `frame - rmsd.centroid(frame)` (line 89):
subtract the centroid from every row, elementwise per axis. -/
def recenter (rows : List (ℚ × ℚ × ℚ)) : List (ℚ × ℚ × ℚ) :=
  let c := centroid rows
  rows.map (fun r => (r.1 - c.1, r.2.1 - c.2.1, r.2.2 - c.2.2))

/-- Embedding of `.ravel()` (line 90): flatten rows in atom-major order. -/
def ravel (rows : List (ℚ × ℚ × ℚ)) : List ℚ :=
  rows.flatMap (fun r => [r.1, r.2.1, r.2.2])

/-- Embedding of `XYZFile.parse_one_frame` (lines 73-90): collect every
token after the first of each line, parse them as floats, reshape into
rows of three, subtract the centroid, and flatten. -/
def parse_one_frame (lines : List String) : Except ParseError (List ℚ) :=
  match pyFloats (lines.flatMap lineTokens) with
  | .error e => .error e
  | .ok flat =>
    match reshape3 flat with
    | .error e => .error e
    | .ok frame => .ok (ravel (recenter frame))

/-- One iteration of the frame loop of `parse_xyz_file` (lines 110-124):
slice indices, the frame-level atom-count check, frame parsing, the numpy
row assignment `frames[i, :] = frame` (which accepts a row of matching
length, broadcasts a length-one row, and raises otherwise), and finally
the `len(frame_lines) == num_atoms` assertion, in source order. -/
def processFrame (lines : List String) (num_atoms : Nat) (i : Nat) : Except ParseError (List ℚ) :=
  let xyz_header_lines := 2
  let start_index := i * (num_atoms + xyz_header_lines) + xyz_header_lines
  let end_index := (i + 1) * (num_atoms + xyz_header_lines)
  let frame_num_atoms_index := start_index - 2
  match lines.get? frame_num_atoms_index with
  | none => .error .indexError
  | some headerLine =>
    match cast_positive_int headerLine with
    | .error e => .error (.castError e)
    | .ok frame_num_atoms =>
      if frame_num_atoms ≠ (num_atoms : Int) then
        .error (.frameAtomCountMismatch frame_num_atoms_index (num_atoms : Int) frame_num_atoms)
      else
        let frame_lines := (lines.drop start_index).take (end_index - start_index)
        match parse_one_frame frame_lines with
        | .error e => .error e
        | .ok frame =>
          let stored :=
            if frame.length = num_atoms * 3 then Except.ok frame
            else if frame.length = 1 then
              Except.ok (List.replicate (num_atoms * 3) (frame.headD 0))
            else Except.error ParseError.broadcastError
          match stored with
          | .error e => .error e
          | .ok row =>
            if frame_lines.length = num_atoms then .ok row
            else .error .truncatedFrame

/-- The frame loop itself: process each index in order, stopping at the
first failure (any raise aborts the whole parse). -/
def forFrames (lines : List String) (num_atoms : Nat) : List Nat → Except ParseError (List (List ℚ))
  | [] => .ok []
  | i :: rest =>
    match processFrame lines num_atoms i with
    | .error e => .error e
    | .ok fr =>
      match forFrames lines num_atoms rest with
      | .error e => .error e
      | .ok frs => .ok (fr :: frs)

/-- The fields of a fully parsed `XYZFile` (set in `__init__` and
`parse_xyz_file`).  `cast_positive_int` guarantees both counts positive,
so they are carried as `Nat`. -/
structure XYZData where
  num_atoms : Nat
  num_frames : Nat
  atom_labels : List String
  frames : List (List ℚ)
deriving DecidableEq, Repr

/-- Python `str.endswith` restricted to a literal suffix. -/
def endswith (s suf : String) : Bool :=
  suf.data.isSuffixOf s.data

/-- Embedding of `XYZFile.parse_xyz_file` (lines 92-126): extension
check, atom count from line 0, frame count from the exact length
division (a Python float, modelled as the exact rational), labels from
the first frame block, then the frame loop. -/
def parse_xyz_file (filename : String) (lines : List String) : Except ParseError XYZData :=
  let xyz_header_lines : Nat := 2
  if ¬ (endswith filename ".xyz" = true) then .error .wrongFormat
  else
    match lines.head? with
    | none => .error .indexError
    | some line0 =>
      match cast_positive_int line0 with
      | .error e => .error (.castError e)
      | .ok num_atomsI =>
        let num_atoms := num_atomsI.toNat
        match cast_positive_int_rat ((lines.length : ℚ) / ((num_atomsI : ℚ) + (xyz_header_lines : ℚ))) with
        | .error e => .error (.castError e)
        | .ok num_framesI =>
          let num_frames := num_framesI.toNat
          match parse_atom_labels num_atoms ((lines.drop xyz_header_lines).take num_atoms) with
          | .error e => .error e
          | .ok atom_labels =>
            match forFrames lines num_atoms (List.range num_frames) with
            | .error e => .error e
            | .ok frames => .ok ⟨num_atoms, num_frames, atom_labels, frames⟩

/-! Lemmas about the integer validator. -/

/-- With no fractional part and no exponent, the exact float value of a
literal is its integer value, so the `int != float` comparison of
`cast_positive_int` never fires on a string token. -/
lemma NumLit.ratValue_eq_intValue (l : NumLit) (hfp : l.fp = none) (hex : l.ex = none) :
    (l.intValue : ℚ) = l.ratValue := by
  unfold NumLit.ratValue NumLit.intValue
  rw [hfp, hex]
  cases l.sign <;> simp

/-- Unfolding equation of `cast_positive_int` when the literal parses. -/
lemma cast_positive_int_some (s : String) (l : NumLit) (hp : parseNumLit s = some l) :
    cast_positive_int s =
      (if l.fp.isSome ∨ l.ex.isSome then .error (.notAnInteger s)
       else if (l.intValue : ℚ) ≠ l.ratValue then .error .notIntegral
       else if l.intValue = 0 then .error .zeroValue
       else if l.intValue < 0 then .error .negativeValue
       else .ok l.intValue) := by
  unfold cast_positive_int; rw [hp]

/-- Unfolding equation of `cast_positive_int` when the literal fails. -/
lemma cast_positive_int_none (s : String) (hp : parseNumLit s = none) :
    cast_positive_int s = .error (.notAnInteger s) := by
  unfold cast_positive_int; rw [hp]

/-- Unfolding equation of `pyIntOfString` when the literal parses. -/
lemma pyIntOfString_some (s : String) (l : NumLit) (hp : parseNumLit s = some l) :
    pyIntOfString s = (if l.fp.isSome ∨ l.ex.isSome then none else some l.intValue) := by
  unfold pyIntOfString; rw [hp]

/-- Unfolding equation of `pyIntOfString` when the literal fails. -/
lemma pyIntOfString_none (s : String) (hp : parseNumLit s = none) :
    pyIntOfString s = none := by
  unfold pyIntOfString; rw [hp]

/-- Successful validation yields a strictly positive integer. -/
lemma cast_positive_int_pos {s : String} {n : Int}
    (h : cast_positive_int s = .ok n) : 0 < n := by
  cases hp : parseNumLit s with
  | none => rw [cast_positive_int_none s hp] at h; exact absurd h (by simp)
  | some l =>
    rw [cast_positive_int_some s l hp] at h
    split_ifs at h with h1 h2 h3 h4
    all_goals
      first
      | exact Except.noConfusion h
      | (have h5 : l.intValue = n := Except.ok.inj h; omega)

/-- C8.  `cast_positive_int` on a token whose `int(...)` parse denotes the
integer `n`: it fails with `ZeroValue` exactly when `n = 0`, with
`NegativeValue` exactly when `n < 0`, and returns `n` exactly when
`n > 0`. -/
theorem cast_positive_int_sign_trichotomy (s : String) (n : Int)
    (h : pyIntOfString s = some n) :
    (cast_positive_int s = .error .zeroValue ↔ n = 0) ∧
    (cast_positive_int s = .error .negativeValue ↔ n < 0) ∧
    (cast_positive_int s = .ok n ↔ 0 < n) := by
  cases hp : parseNumLit s with
  | none => rw [pyIntOfString_none s hp] at h; exact absurd h (by simp)
  | some l =>
    rw [pyIntOfString_some s l hp] at h
    by_cases hc : l.fp.isSome ∨ l.ex.isSome
    · rw [if_pos hc] at h; exact absurd h (by simp)
    · rw [if_neg hc] at h
      have hn : l.intValue = n := by simpa using h
      have hfp : l.fp = none := Option.not_isSome_iff_eq_none.mp fun hs => hc (Or.inl hs)
      have hex : l.ex = none := Option.not_isSome_iff_eq_none.mp fun hs => hc (Or.inr hs)
      have hq : ¬ ((l.intValue : ℚ) ≠ l.ratValue) :=
        not_not_intro (l.ratValue_eq_intValue hfp hex)
      rw [cast_positive_int_some s l hp, if_neg hc, if_neg hq, hn]
      rcases lt_trichotomy n 0 with h0 | h0 | h0
      · rw [if_neg (by omega : ¬ n = 0), if_pos h0]
        refine ⟨⟨by simp, by omega⟩, by simp [h0], ⟨by simp, by omega⟩⟩
      · rw [if_pos h0]
        refine ⟨by simp [h0], ⟨by simp, by omega⟩, ⟨by simp, by omega⟩⟩
      · rw [if_neg (by omega : ¬ n = 0), if_neg (by omega : ¬ n < 0)]
        refine ⟨⟨by simp, by omega⟩, ⟨by simp, by omega⟩, by simp [h0]⟩

/-- Witness for C8 at the token `"3"`. -/
theorem cast_positive_int_sign_trichotomy_witness :
    pyIntOfString "3" = some 3 ∧ (cast_positive_int "3" = .ok 3 ↔ (0 : Int) < 3) :=
  ⟨by with_unfolding_all rfl,
   (cast_positive_int_sign_trichotomy "3" 3 (by with_unfolding_all rfl)).2.2⟩

/-- C2 counterexample.  On the string token `"3.5"` the validator raises
the `NotAnInteger` error (Python `int("3.5")` raises `ValueError`
outright), not the `NotIntegral` one the claim predicts. -/
theorem cast_positive_int_string_float_counterexample :
    cast_positive_int "3.5" = .error (.notAnInteger "3.5") ∧
    cast_positive_int "3.5" ≠ .error .notIntegral := by
  have h : cast_positive_int "3.5" = .error (.notAnInteger "3.5") := by
    with_unfolding_all rfl
  exact ⟨h, by rw [h]; simp⟩

/-- C2 amended.  A string token `"3.5"` fails with `NotAnInteger`; the
`NotIntegral` branch fires when `cast_positive_int` receives a numeric
(float) input with a nonzero fractional part, as it does for the
frame-count quotient at line 106 (for example `7/2 = 3.5`). -/
theorem cast_positive_int_three_point_five :
    cast_positive_int "3.5" = .error (.notAnInteger "3.5") ∧
    cast_positive_int_rat ((7 : ℚ) / 2) = .error .notIntegral := by
  constructor <;> with_unfolding_all rfl

/-! The label builder. -/

/-- C1 (code bug).  The occurrence counter is keyed on the tagged name
(`"C0"`) rather than the element symbol (`"C"`), because the loop rebinds
`atom` before `seen_atoms[atom] += 1`; the element key therefore stays at
0 and two carbons both receive the base tag `C0`, not `C0` and `C1`. -/
theorem parse_atom_labels_duplicate_tags :
    parse_atom_labels 2 ["C 0 0 0", "C 1 0 0"] =
      .ok ["C0_x", "C0_y", "C0_z", "C0_x", "C0_y", "C0_z"] ∧
    parse_atom_labels 2 ["C 0 0 0", "C 1 0 0"] ≠
      .ok ["C0_x", "C0_y", "C0_z", "C1_x", "C1_y", "C1_z"] := by
  have h : parse_atom_labels 2 ["C 0 0 0", "C 1 0 0"] =
      .ok ["C0_x", "C0_y", "C0_z", "C0_x", "C0_y", "C0_z"] := by
    with_unfolding_all rfl
  exact ⟨h, by rw [h]; simp⟩

/-! Geometry of the recentering transform. -/

/-- Summing a constant-shifted list. -/
lemma sum_map_sub_const (l : List (ℚ × ℚ × ℚ)) (f : ℚ × ℚ × ℚ → ℚ) (c : ℚ) :
    (l.map fun r => f r - c).sum = (l.map f).sum - l.length * c := by
  induction l with
  | nil => simp
  | cons a t ih => simp [ih]; ring

/-- After recentering, each per-axis sum of the rows is zero. -/
lemma recenter_axis_sums (rows : List (ℚ × ℚ × ℚ)) :
    ((recenter rows).map (fun r => r.1)).sum = 0 ∧
    ((recenter rows).map (fun r => r.2.1)).sum = 0 ∧
    ((recenter rows).map (fun r => r.2.2)).sum = 0 := by
  rcases hrows : rows with _ | ⟨r0, rest⟩
  · simp [recenter, centroid]
  · rw [← hrows]
    have hn : (rows.length : ℚ) ≠ 0 := by
      rw [hrows]; simp
      exact_mod_cast Nat.succ_ne_zero rest.length
    refine ⟨?_, ?_, ?_⟩ <;>
    · unfold recenter centroid
      rw [List.map_map]
      have : ∀ g : (ℚ × ℚ × ℚ) → ℚ,
          ((rows.map fun r => g r - (rows.map g).sum / rows.length).sum) = 0 := by
        intro g
        rw [sum_map_sub_const]
        field_simp
      first
      | exact this (fun r => r.1)
      | exact this (fun r => r.2.1)
      | exact this (fun r => r.2.2)

/-- The centroid of a recentered frame is the origin. -/
lemma centroid_recenter (rows : List (ℚ × ℚ × ℚ)) :
    centroid (recenter rows) = (0, 0, 0) := by
  obtain ⟨h1, h2, h3⟩ := recenter_axis_sums rows
  unfold centroid
  rw [h1, h2, h3]
  simp

/-- A frame whose centroid is already the origin is left unchanged. -/
lemma recenter_of_centroid_eq_zero (rows : List (ℚ × ℚ × ℚ))
    (h : centroid rows = (0, 0, 0)) : recenter rows = rows := by
  unfold recenter
  rw [h]
  simp

/-- C7.  Recentering is idempotent, and a frame already centred at the
origin is returned unchanged by the centroid-subtraction transform of
`parse_one_frame`. -/
theorem recenter_idempotent (rows : List (ℚ × ℚ × ℚ)) :
    recenter (recenter rows) = recenter rows ∧
    (centroid rows = (0, 0, 0) → recenter rows = rows) :=
  ⟨recenter_of_centroid_eq_zero (recenter rows) (centroid_recenter rows),
   recenter_of_centroid_eq_zero rows⟩

/-- Witness for C7 on a concrete centred two-atom frame. -/
theorem recenter_idempotent_witness :
    centroid [((1 : ℚ), 0, 0), (-1, 0, 0)] = (0, 0, 0) ∧
    recenter [((1 : ℚ), 0, 0), (-1, 0, 0)] = [((1 : ℚ), 0, 0), (-1, 0, 0)] :=
  ⟨by with_unfolding_all rfl,
   (recenter_idempotent [((1 : ℚ), 0, 0), (-1, 0, 0)]).2 (by with_unfolding_all rfl)⟩

/-! Structure of `parse_one_frame`. -/

/-- Flattening rows of three yields three values per row. -/
lemma ravel_length (rows : List (ℚ × ℚ × ℚ)) : (ravel rows).length = 3 * rows.length := by
  induction rows with
  | nil => rfl
  | cons r t ih => simp [ravel] at ih ⊢; omega

/-- Recentering preserves the row count. -/
lemma recenter_length (rows : List (ℚ × ℚ × ℚ)) : (recenter rows).length = rows.length := by
  simp [recenter]

/-- Reshaping undoes flattening. -/
lemma reshape3_ravel (rows : List (ℚ × ℚ × ℚ)) : reshape3 (ravel rows) = .ok rows := by
  induction rows with
  | nil => rfl
  | cons r t ih => simp [ravel] at ih ⊢; simp [reshape3, ih]

/-- Token parsing distributes over concatenation. -/
lemma pyFloats_append {xs ys : List String} {vs ws : List ℚ}
    (hx : pyFloats xs = .ok vs) (hy : pyFloats ys = .ok ws) :
    pyFloats (xs ++ ys) = .ok (vs ++ ws) := by
  induction xs generalizing vs with
  | nil =>
    simp only [pyFloats] at hx
    cases hx
    simpa using hy
  | cons t ts ih =>
    simp only [List.cons_append, pyFloats] at hx ⊢
    cases hq : pyFloatOfString t with
    | none => rw [hq] at hx; exact Except.noConfusion hx
    | some q =>
      rw [hq] at hx
      dsimp only at hx ⊢
      cases hts : pyFloats ts with
      | error e => rw [hts] at hx; exact Except.noConfusion hx
      | ok qs =>
        rw [hts] at hx
        dsimp only at hx
        have hv : vs = q :: qs := (Except.ok.inj hx).symm
        rw [List.append_eq, ih hts, hv]
        rfl

/-- Reshaping fails only with the reshape error. -/
lemma reshape3_error : ∀ (l : List ℚ) (e : ParseError),
    reshape3 l = .error e → e = .reshapeError := by
  intro l
  induction l using reshape3.induct with
  | case1 => intro e h; exact Except.noConfusion h
  | case2 x y z rest e2 hr ih =>
    intro e h
    simp only [reshape3] at h
    rw [hr] at h
    exact (Except.error.inj h) ▸ ih e2 hr
  | case3 x y z rest rows hr ih =>
    intro e h
    simp only [reshape3] at h
    rw [hr] at h
    exact Except.noConfusion h
  | case4 t h1 h2 =>
    intro e h
    rcases t with _ | ⟨x, _ | ⟨y, _ | ⟨z, rest⟩⟩⟩
    · exact absurd rfl h1
    · exact (Except.error.inj h).symm
    · exact (Except.error.inj h).symm
    · exact absurd rfl (h2 x y z rest)

/-- A successful reshape consumed three values per row. -/
lemma reshape3_ok_length : ∀ (l : List ℚ) (rows : List (ℚ × ℚ × ℚ)),
    reshape3 l = .ok rows → l.length = 3 * rows.length := by
  intro l
  induction l using reshape3.induct with
  | case1 =>
    intro rows h
    obtain rfl := Except.ok.inj h
    rfl
  | case2 x y z rest e hr ih =>
    intro rows h
    simp only [reshape3] at h
    rw [hr] at h
    exact Except.noConfusion h
  | case3 x y z rest rows0 hr ih =>
    intro rows h
    simp only [reshape3] at h
    rw [hr] at h
    obtain rfl := Except.ok.inj h
    have := ih rows0 hr
    simp only [List.length_cons]
    simp only [List.length_cons] at this ⊢
    omega
  | case4 t h1 h2 =>
    intro rows h
    rcases t with _ | ⟨x, _ | ⟨y, _ | ⟨z, rest⟩⟩⟩
    · exact absurd rfl h1
    · exact Except.noConfusion h
    · exact Except.noConfusion h
    · exact absurd rfl (h2 x y z rest)

/-- A value list whose length is a multiple of three reshapes
successfully. -/
lemma reshape3_ok_of_dvd : ∀ (l : List ℚ), 3 ∣ l.length →
    ∃ rows, reshape3 l = .ok rows ∧ 3 * rows.length = l.length := by
  intro l
  induction l using reshape3.induct with
  | case1 => intro h; exact ⟨[], rfl, rfl⟩
  | case2 x y z rest e hr ih =>
    intro h
    simp only [List.length_cons] at h
    have h3 : 3 ∣ rest.length := by omega
    obtain ⟨rows, hok, _⟩ := ih h3
    rw [hok] at hr
    exact Except.noConfusion hr
  | case3 x y z rest rows hr ih =>
    intro h
    simp only [List.length_cons] at h
    have h3 : 3 ∣ rest.length := by omega
    obtain ⟨rows2, hok, hlen⟩ := ih h3
    rw [hok] at hr
    obtain rfl := Except.ok.inj hr
    refine ⟨(x, y, z) :: rows2, ?_, ?_⟩
    · simp only [reshape3]
      rw [hok]
    · simp only [List.length_cons]
      omega
  | case4 t h1 h2 =>
    intro h
    rcases t with _ | ⟨x, _ | ⟨y, _ | ⟨z, rest⟩⟩⟩
    · exact absurd rfl h1
    · simp only [List.length_cons, List.length_nil] at h; omega
    · simp only [List.length_cons, List.length_nil] at h; omega
    · exact absurd rfl (h2 x y z rest)

/-- Token parsing fails only with a numeric parse error, naming the
offending token. -/
lemma pyFloats_error : ∀ {ts : List String} {e : ParseError},
    pyFloats ts = .error e → ∃ t, e = .numericParseError t := by
  intro ts
  induction ts with
  | nil => intro e h; exact Except.noConfusion h
  | cons t ts ih =>
    intro e h
    simp only [pyFloats] at h
    cases hq : pyFloatOfString t with
    | none =>
      rw [hq] at h
      exact ⟨t, (Except.error.inj h).symm⟩
    | some q =>
      rw [hq] at h
      dsimp only at h
      cases hts : pyFloats ts with
      | error e2 =>
        rw [hts] at h
        obtain ⟨t2, ht2⟩ := ih hts
        exact ⟨t2, (Except.error.inj h) ▸ ht2⟩
      | ok qs =>
        rw [hts] at h
        exact Except.noConfusion h

/-- Successful token parsing consumes every token. -/
lemma pyFloats_ok_length : ∀ {ts : List String} {vs : List ℚ},
    pyFloats ts = .ok vs → vs.length = ts.length := by
  intro ts
  induction ts with
  | nil =>
    intro vs h
    obtain rfl := Except.ok.inj h
    rfl
  | cons t ts ih =>
    intro vs h
    simp only [pyFloats] at h
    cases hq : pyFloatOfString t with
    | none => rw [hq] at h; exact Except.noConfusion h
    | some q =>
      rw [hq] at h
      dsimp only at h
      cases hts : pyFloats ts with
      | error e => rw [hts] at h; exact Except.noConfusion h
      | ok qs =>
        rw [hts] at h
        obtain rfl := (Except.ok.inj h).symm
        simp [ih hts]

/-- Parsable tokens always succeed. -/
lemma pyFloats_ok_of_isSome : ∀ (ts : List String),
    (∀ t ∈ ts, (pyFloatOfString t).isSome = true) →
    ∃ vs, pyFloats ts = .ok vs ∧ vs.length = ts.length := by
  intro ts
  induction ts with
  | nil => intro h; exact ⟨[], rfl, rfl⟩
  | cons t ts ih =>
    intro h
    obtain ⟨q, hq⟩ := Option.isSome_iff_exists.mp (h t (by simp))
    obtain ⟨vs, hvs, hlen⟩ := ih fun x hx => h x (by simp [hx])
    refine ⟨q :: vs, ?_, by simp [hlen]⟩
    simp only [pyFloats]
    rw [hq]
    dsimp only
    rw [hvs]

/-- Composition equation for `parse_one_frame` when both stages succeed. -/
lemma parse_one_frame_of (lines : List String) (flat : List ℚ)
    (rows : List (ℚ × ℚ × ℚ))
    (h1 : pyFloats (lines.flatMap lineTokens) = .ok flat)
    (h2 : reshape3 flat = .ok rows) :
    parse_one_frame lines = .ok (ravel (recenter rows)) := by
  unfold parse_one_frame
  rw [h1]
  dsimp only
  rw [h2]

/-- Inversion of a successful `parse_one_frame`. -/
lemma parse_one_frame_ok {lines : List String} {v : List ℚ}
    (h : parse_one_frame lines = .ok v) :
    ∃ flat rows, pyFloats (lines.flatMap lineTokens) = .ok flat ∧
      reshape3 flat = .ok rows ∧ v = ravel (recenter rows) := by
  unfold parse_one_frame at h
  cases hf : pyFloats (lines.flatMap lineTokens) with
  | error e => rw [hf] at h; exact Except.noConfusion h
  | ok flat =>
    rw [hf] at h
    dsimp only at h
    cases hr : reshape3 flat with
    | error e => rw [hr] at h; exact Except.noConfusion h
    | ok rows =>
      rw [hr] at h
      exact ⟨flat, rows, rfl, hr, (Except.ok.inj h).symm⟩

/-- A frame parse fails only with a numeric parse error or the reshape
error, never with any other kind. -/
lemma parse_one_frame_error {lines : List String} {e : ParseError}
    (h : parse_one_frame lines = .error e) :
    (∃ t, e = .numericParseError t) ∨ e = .reshapeError := by
  unfold parse_one_frame at h
  cases hf : pyFloats (lines.flatMap lineTokens) with
  | error e2 =>
    rw [hf] at h
    exact Or.inl ((Except.error.inj h) ▸ pyFloats_error hf)
  | ok flat =>
    rw [hf] at h
    dsimp only at h
    cases hr : reshape3 flat with
    | error e2 =>
      rw [hr] at h
      exact Or.inr ((Except.error.inj h) ▸ reshape3_error flat e2 hr)
    | ok rows =>
      rw [hr] at h
      exact Except.noConfusion h

/-- The length of a successfully parsed frame equals the total number of
trailing tokens, and is a multiple of three. -/
lemma parse_one_frame_ok_length {lines : List String} {v : List ℚ}
    (h : parse_one_frame lines = .ok v) :
    v.length = (lines.flatMap lineTokens).length ∧ 3 ∣ v.length := by
  obtain ⟨flat, rows, h1, h2, rfl⟩ := parse_one_frame_ok h
  have hf : flat.length = (lines.flatMap lineTokens).length := pyFloats_ok_length h1
  have hr : flat.length = 3 * rows.length := reshape3_ok_length flat rows h2
  have hv : (ravel (recenter rows)).length = 3 * rows.length := by
    rw [ravel_length, recenter_length]
  exact ⟨by omega, by rw [hv]; exact Dvd.intro rows.length rfl⟩

/-- Per-line triples concatenate into the flat token parse. -/
lemma rows_of_lines : ∀ (lines : List String),
    (∀ line ∈ lines, ∃ a b c : ℚ, pyFloats (lineTokens line) = .ok [a, b, c]) →
    ∃ rows : List (ℚ × ℚ × ℚ), rows.length = lines.length ∧
      pyFloats (lines.flatMap lineTokens) = .ok (ravel rows) := by
  intro lines
  induction lines with
  | nil => intro h; exact ⟨[], rfl, rfl⟩
  | cons l t ih =>
    intro h
    obtain ⟨a, b, c, hl⟩ := h l (by simp)
    obtain ⟨rows, hlen, hpf⟩ := ih fun x hx => h x (by simp [hx])
    refine ⟨(a, b, c) :: rows, by simp [hlen], ?_⟩
    rw [List.flatMap_cons]
    simpa [ravel] using pyFloats_append hl hpf

/-- C3.  On a frame whose lines each carry a symbol and three numeric
tokens, `parse_one_frame` returns the parsed rows minus their centroid,
flattened in atom-major order, with length `3N` and per-axis sums equal
to zero. -/
theorem parse_one_frame_recenters (lines : List String)
    (h : ∀ line ∈ lines, ∃ a b c : ℚ, pyFloats (lineTokens line) = .ok [a, b, c]) :
    ∃ rows : List (ℚ × ℚ × ℚ),
      rows.length = lines.length ∧
      pyFloats (lines.flatMap lineTokens) = .ok (ravel rows) ∧
      parse_one_frame lines = .ok (ravel (recenter rows)) ∧
      (ravel (recenter rows)).length = 3 * lines.length ∧
      ((recenter rows).map fun r => r.1).sum = 0 ∧
      ((recenter rows).map fun r => r.2.1).sum = 0 ∧
      ((recenter rows).map fun r => r.2.2).sum = 0 := by
  obtain ⟨rows, hlen, hpf⟩ := rows_of_lines lines h
  obtain ⟨hs1, hs2, hs3⟩ := recenter_axis_sums rows
  refine ⟨rows, hlen, hpf,
    parse_one_frame_of lines _ rows hpf (reshape3_ravel rows), ?_, hs1, hs2, hs3⟩
  rw [ravel_length, recenter_length, hlen]

/-- Witness for C3 on the three-atom frame from the specification
scenario. -/
theorem parse_one_frame_recenters_witness :
    ∃ rows : List (ℚ × ℚ × ℚ),
      rows.length = (["C 0 0 0", "H 1 0 0", "H 0 1 0"] : List String).length ∧
      pyFloats ((["C 0 0 0", "H 1 0 0", "H 0 1 0"] : List String).flatMap lineTokens) =
        .ok (ravel rows) ∧
      parse_one_frame ["C 0 0 0", "H 1 0 0", "H 0 1 0"] = .ok (ravel (recenter rows)) ∧
      (ravel (recenter rows)).length =
        3 * (["C 0 0 0", "H 1 0 0", "H 0 1 0"] : List String).length ∧
      ((recenter rows).map fun r => r.1).sum = 0 ∧
      ((recenter rows).map fun r => r.2.1).sum = 0 ∧
      ((recenter rows).map fun r => r.2.2).sum = 0 :=
  parse_one_frame_recenters ["C 0 0 0", "H 1 0 0", "H 0 1 0"] (by
    intro line hl
    simp only [List.mem_cons, List.not_mem_nil, or_false] at hl
    rcases hl with rfl | rfl | rfl
    · exact ⟨0, 0, 0, by with_unfolding_all rfl⟩
    · exact ⟨1, 0, 0, by with_unfolding_all rfl⟩
    · exact ⟨0, 1, 0, by with_unfolding_all rfl⟩)

/-- C10.  `parse_one_frame` converts every token after the first on each
line, not exactly three: whenever all trailing tokens parse and their
total count is a multiple of three (as the reshape demands), it succeeds
and the returned vector has exactly that total length — equal to
`3 * atomCount` only when every line carries exactly three. -/
theorem parse_one_frame_token_count (lines : List String)
    (h : ∀ t ∈ lines.flatMap lineTokens, (pyFloatOfString t).isSome = true)
    (hdvd : 3 ∣ (lines.flatMap lineTokens).length) :
    ∃ v, parse_one_frame lines = .ok v ∧
      v.length = (lines.flatMap lineTokens).length := by
  obtain ⟨vs, hvs, hlen⟩ := pyFloats_ok_of_isSome _ h
  obtain ⟨rows, hok, hrl⟩ := reshape3_ok_of_dvd vs (by rw [hlen]; exact hdvd)
  refine ⟨ravel (recenter rows), parse_one_frame_of lines vs rows hvs hok, ?_⟩
  rw [ravel_length, recenter_length]
  omega

/-- Witness for C10: a line with four trailing tokens and a line with two
are accepted, producing a six-value vector for a two-line frame. -/
theorem parse_one_frame_token_count_witness :
    ∃ v, parse_one_frame ["C 1 2 3 4", "H 5 6"] = .ok v ∧
      v.length = ((["C 1 2 3 4", "H 5 6"] : List String).flatMap lineTokens).length :=
  parse_one_frame_token_count ["C 1 2 3 4", "H 5 6"]
    (by decide) (by decide)

/-! Parser-level lemmas. -/

/-- The label loop fails only with the index error raised by
`line.split()[0]` on a blank line. -/
lemma label_loop_error : ∀ {seen : String → Nat} {ls : List String} {e : ParseError},
    label_loop seen ls = .error e → e = .indexError := by
  intro seen ls
  induction ls generalizing seen with
  | nil => intro e h; exact Except.noConfusion h
  | cons l rest ih =>
    intro e h
    simp only [label_loop] at h
    cases hh : (pySplit l).head? with
    | none =>
      rw [hh] at h
      exact (Except.error.inj h).symm
    | some atom0 =>
      rw [hh] at h
      dsimp only at h
      cases hrec : label_loop _ rest with
      | error e2 =>
        rw [hrec] at h
        exact (Except.error.inj h) ▸ ih hrec
      | ok labs =>
        rw [hrec] at h
        exact Except.noConfusion h

/-- `parse_atom_labels` fails only with the index error or the label
count assertion. -/
lemma parse_atom_labels_error {na : Nat} {ls : List String} {e : ParseError}
    (h : parse_atom_labels na ls = .error e) :
    e = .indexError ∨ e = .labelCountMismatch := by
  unfold parse_atom_labels at h
  cases hl : label_loop (fun _ => 0) ls with
  | error e2 =>
    rw [hl] at h
    exact Or.inl ((Except.error.inj h) ▸ label_loop_error hl)
  | ok labs =>
    rw [hl] at h
    dsimp only at h
    split_ifs at h with hc
    exact Or.inr (Except.error.inj h).symm

/-- A successful label build carries exactly `3N` labels. -/
lemma parse_atom_labels_ok_length {na : Nat} {ls : List String} {labs : List String}
    (h : parse_atom_labels na ls = .ok labs) : labs.length = na * 3 := by
  unfold parse_atom_labels at h
  cases hl : label_loop (fun _ => 0) ls with
  | error e => rw [hl] at h; exact Except.noConfusion h
  | ok ls2 =>
    rw [hl] at h
    dsimp only at h
    split_ifs at h with hc
    obtain rfl := Except.ok.inj h
    exact hc

/-- Inversion of a successful numeric-input validation: the value was an
exact positive integer. -/
lemma cast_positive_int_rat_ok {q : ℚ} {n : Int}
    (h : cast_positive_int_rat q = .ok n) : (n : ℚ) = q ∧ 0 < n := by
  unfold cast_positive_int_rat at h
  dsimp only at h
  split_ifs at h with h1 h2 h3
  obtain rfl := Except.ok.inj h
  exact ⟨not_not.mp h1, by omega⟩

/-- The numeric-input validation flags any non-integer value as
`NotIntegral`. -/
lemma cast_positive_int_rat_not_integral {q : ℚ} (h : ∀ z : Int, (z : ℚ) ≠ q) :
    cast_positive_int_rat q = .error .notIntegral := by
  unfold cast_positive_int_rat
  rw [if_pos (h (pytrunc q))]

/-- A quotient of naturals with a non-dividing denominator is not an
integer. -/
lemma no_int_quotient {L d : Nat} (hd : 0 < d) (hndvd : ¬ d ∣ L) :
    ∀ z : Int, (z : ℚ) ≠ (L : ℚ) / (d : ℚ) := by
  intro z hz
  have hdq : (d : ℚ) ≠ 0 := Nat.cast_ne_zero.mpr (by omega)
  have hmul : (z : ℚ) * (d : ℚ) = (L : ℚ) := by
    rw [hz, div_mul_cancel₀ _ hdq]
  have hzd : z * (d : Int) = (L : Int) := by exact_mod_cast hmul
  have hdvd : (d : Int) ∣ (L : Int) := ⟨z, by rw [← hzd]; ring⟩
  exact hndvd (Int.ofNat_dvd.mp hdvd)

/-- When the frame-count division validates, the file length factors
exactly. -/
lemma length_eq_of_casts {lines : List String} {naI nfI : Int} (hna : 0 < naI)
    (h : cast_positive_int_rat ((lines.length : ℚ) / ((naI : ℚ) + 2)) = .ok nfI) :
    lines.length = nfI.toNat * (naI.toNat + 2) := by
  obtain ⟨heq, hpos⟩ := cast_positive_int_rat_ok h
  have hd : (naI : ℚ) + 2 ≠ 0 := by
    have h1 : (0 : ℚ) < (naI : ℚ) := by exact_mod_cast hna
    linarith
  have hmul : (nfI : ℚ) * ((naI : ℚ) + 2) = (lines.length : ℚ) := by
    rw [heq, div_mul_cancel₀ _ hd]
  have hz : nfI * (naI + 2) = (lines.length : Int) := by exact_mod_cast hmul
  have e1 : ((naI.toNat : Int)) = naI := Int.toNat_of_nonneg (by omega)
  have e2 : ((nfI.toNat : Int)) = nfI := Int.toNat_of_nonneg (by omega)
  have : (nfI.toNat : Int) * ((naI.toNat : Int) + 2) = (lines.length : Int) := by
    rw [e1, e2]; exact hz
  exact_mod_cast this.symm

/-- The frame-body slice bound simplifies to the atom count. -/
lemma slice_arith (i na : Nat) : (i + 1) * (na + 2) - (i * (na + 2) + 2) = na := by
  have h1 : (i + 1) * (na + 2) = i * (na + 2) + (na + 2) := by ring
  omega

/-- Under the exact length factorisation, every frame-body slice holds
exactly `num_atoms` lines. -/
lemma frame_slice_length {lines : List String} {na F i : Nat}
    (hL : lines.length = F * (na + 2)) (hi : i < F) :
    ((lines.drop (i * (na + 2) + 2)).take
      ((i + 1) * (na + 2) - (i * (na + 2) + 2))).length = na := by
  rw [List.length_take, List.length_drop]
  have h1 : (i + 1) * (na + 2) = i * (na + 2) + (na + 2) := by ring
  have h3 : (i + 1) * (na + 2) ≤ F * (na + 2) := Nat.mul_le_mul_right _ hi
  omega

/-- Any index below `n` splits `List.range n` around itself. -/
lemma range_split : ∀ (n i : Nat), i < n →
    ∃ post, List.range n = List.range i ++ i :: post := by
  intro n
  induction n with
  | zero => intro i hi; omega
  | succ k ih =>
    intro i hi
    rcases Nat.lt_succ_iff_lt_or_eq.mp hi with h | rfl
    · obtain ⟨post, hpost⟩ := ih i h
      exact ⟨post ++ [k], by rw [List.range_succ, hpost]; simp⟩
    · exact ⟨[], by rw [List.range_succ]⟩

/-- Inversion of a successful frame iteration: the header line exists
and validates to the expected atom count, the body slice parses, the
stored row has width `3N`, and the body slice holds `N` lines. -/
lemma processFrame_ok {lines : List String} {na i : Nat} {fr : List ℚ}
    (h : processFrame lines na i = .ok fr) :
    ∃ hl, lines.get? (i * (na + 2)) = some hl ∧
      cast_positive_int hl = .ok (na : Int) ∧
      parse_one_frame ((lines.drop (i * (na + 2) + 2)).take
        ((i + 1) * (na + 2) - (i * (na + 2) + 2))) = .ok fr ∧
      fr.length = na * 3 ∧
      ((lines.drop (i * (na + 2) + 2)).take
        ((i + 1) * (na + 2) - (i * (na + 2) + 2))).length = na := by
  simp only [processFrame] at h
  have harith : i * (na + 2) + 2 - 2 = i * (na + 2) := by omega
  rw [harith] at h
  cases hget : lines.get? (i * (na + 2)) with
  | none => rw [hget] at h; exact Except.noConfusion h
  | some hl =>
    rw [hget] at h
    dsimp only at h
    cases hcast : cast_positive_int hl with
    | error e => rw [hcast] at h; exact Except.noConfusion h
    | ok got =>
      rw [hcast] at h
      dsimp only at h
      rcases eq_or_ne got (na : Int) with rfl | hne
      · rw [if_neg (by simp)] at h
        cases hpf : parse_one_frame ((lines.drop (i * (na + 2) + 2)).take
            ((i + 1) * (na + 2) - (i * (na + 2) + 2))) with
        | error e => rw [hpf] at h; exact Except.noConfusion h
        | ok frame =>
          rw [hpf] at h
          dsimp only at h
          rcases eq_or_ne frame.length (na * 3) with hflen | hflen
          · rw [if_pos hflen] at h
            dsimp only at h
            rcases eq_or_ne ((lines.drop (i * (na + 2) + 2)).take
                ((i + 1) * (na + 2) - (i * (na + 2) + 2))).length na with hsl | hsl
            · rw [if_pos hsl] at h
              obtain rfl := Except.ok.inj h
              exact ⟨hl, rfl, hcast, rfl, hflen, hsl⟩
            · rw [if_neg hsl] at h
              exact Except.noConfusion h
          · rw [if_neg hflen] at h
            rcases eq_or_ne frame.length 1 with h1 | h1
            · have hdvd := (parse_one_frame_ok_length hpf).2
              rw [h1] at hdvd
              omega
            · rw [if_neg h1] at h
              exact Except.noConfusion h
      · rw [if_pos hne] at h
        exact Except.noConfusion h

/-- A reached frame whose header validates fails with the atom-count
mismatch exactly when the validated value differs from the expected
count, and never reports a mismatch when it agrees. -/
lemma processFrame_mismatch {lines : List String} {na i : Nat} {hl : String} {got : Int}
    (hget : lines.get? (i * (na + 2)) = some hl)
    (hcast : cast_positive_int hl = .ok got) :
    (got ≠ (na : Int) → processFrame lines na i =
      .error (.frameAtomCountMismatch (i * (na + 2)) (na : Int) got)) ∧
    (got = (na : Int) → ∀ idx e g,
      processFrame lines na i ≠ .error (.frameAtomCountMismatch idx e g)) := by
  have harith : i * (na + 2) + 2 - 2 = i * (na + 2) := by omega
  constructor
  · intro hne
    simp only [processFrame]
    rw [harith, hget]
    dsimp only
    rw [hcast]
    dsimp only
    rw [if_pos hne]
  · intro heq idx e g hcontra
    simp only [processFrame] at hcontra
    rw [harith, hget] at hcontra
    dsimp only at hcontra
    rw [hcast] at hcontra
    dsimp only at hcontra
    rw [if_neg (by simp [heq])] at hcontra
    cases hpf : parse_one_frame ((lines.drop (i * (na + 2) + 2)).take
        ((i + 1) * (na + 2) - (i * (na + 2) + 2))) with
    | error e2 =>
      rw [hpf] at hcontra
      rcases parse_one_frame_error hpf with ⟨t, rfl⟩ | rfl <;>
        exact absurd (Except.error.inj hcontra) (by simp)
    | ok frame =>
      rw [hpf] at hcontra
      dsimp only at hcontra
      split_ifs at hcontra <;>
        exact absurd (Except.error.inj hcontra) (by simp)

/-- A frame iteration whose body slice has the expected length never
fails with the truncated-frame assertion. -/
lemma processFrame_ne_truncated {lines : List String} {na i : Nat}
    (hlen : ((lines.drop (i * (na + 2) + 2)).take
      ((i + 1) * (na + 2) - (i * (na + 2) + 2))).length = na) :
    processFrame lines na i ≠ .error .truncatedFrame := by
  intro h
  simp only [processFrame] at h
  have harith : i * (na + 2) + 2 - 2 = i * (na + 2) := by omega
  rw [harith] at h
  cases hget : lines.get? (i * (na + 2)) with
  | none => rw [hget] at h; exact absurd (Except.error.inj h) (by simp)
  | some hl =>
    rw [hget] at h
    dsimp only at h
    cases hcast : cast_positive_int hl with
    | error e => rw [hcast] at h; exact absurd (Except.error.inj h) (by simp)
    | ok got =>
      rw [hcast] at h
      dsimp only at h
      rcases eq_or_ne got (na : Int) with rfl | hne
      · rw [if_neg (by simp)] at h
        cases hpf : parse_one_frame ((lines.drop (i * (na + 2) + 2)).take
            ((i + 1) * (na + 2) - (i * (na + 2) + 2))) with
        | error e2 =>
          rw [hpf] at h
          rcases parse_one_frame_error hpf with ⟨t, rfl⟩ | rfl <;>
            exact absurd (Except.error.inj h) (by simp)
        | ok frame =>
          rw [hpf] at h
          dsimp only at h
          rcases eq_or_ne frame.length (na * 3) with hc1 | hc1
          · rw [if_pos hc1] at h
            dsimp only at h
            rw [if_pos hlen] at h
            exact Except.noConfusion h
          · rw [if_neg hc1] at h
            rcases eq_or_ne frame.length 1 with hc2 | hc2
            · rw [if_pos hc2] at h
              dsimp only at h
              rw [if_pos hlen] at h
              exact Except.noConfusion h
            · rw [if_neg hc2] at h
              dsimp only at h
              exact absurd (Except.error.inj h) (by simp)
      · rw [if_pos hne] at h
        exact absurd (Except.error.inj h) (by simp)

/-- Inversion of a successful frame loop: one stored row per index, in
order. -/
lemma forFrames_ok {lines : List String} {na : Nat} :
    ∀ (idxs : List Nat) (out : List (List ℚ)),
    forFrames lines na idxs = .ok out →
    out.length = idxs.length ∧
    ∀ j (hj : j < idxs.length) (hj2 : j < out.length),
      processFrame lines na (idxs.get ⟨j, hj⟩) = .ok (out.get ⟨j, hj2⟩) := by
  intro idxs
  induction idxs with
  | nil =>
    intro out h
    obtain rfl := Except.ok.inj h
    exact ⟨rfl, fun j hj => absurd hj (by simp)⟩
  | cons i rest ih =>
    intro out h
    simp only [forFrames] at h
    cases hp : processFrame lines na i with
    | error e => rw [hp] at h; exact Except.noConfusion h
    | ok fr =>
      rw [hp] at h
      dsimp only at h
      cases hrest : forFrames lines na rest with
      | error e => rw [hrest] at h; exact Except.noConfusion h
      | ok frs =>
        rw [hrest] at h
        obtain rfl := (Except.ok.inj h).symm
        obtain ⟨hlen, hget⟩ := ih frs hrest
        refine ⟨by simp [hlen], ?_⟩
        intro j hj hj2
        cases j with
        | zero => simpa using hp
        | succ k =>
          have hk : k < rest.length := by simpa using hj
          have hk2 : k < frs.length := by simpa using hj2
          simpa using hget k hk hk2

/-- The frame loop surfaces the first per-frame failure after any run of
successful frames. -/
lemma forFrames_append_error {lines : List String} {na : Nat} :
    ∀ (pre : List Nat) (i : Nat) (post : List Nat) (e : ParseError),
    (∀ j ∈ pre, ∃ fr, processFrame lines na j = .ok fr) →
    processFrame lines na i = .error e →
    forFrames lines na (pre ++ i :: post) = .error e := by
  intro pre
  induction pre with
  | nil =>
    intro i post e hpre hi
    simp only [List.nil_append, forFrames]
    rw [hi]
  | cons p ps ih =>
    intro i post e hpre hi
    obtain ⟨fr, hfr⟩ := hpre p (by simp)
    simp only [List.cons_append, forFrames]
    rw [hfr]
    dsimp only
    rw [List.append_eq, ih i post e (fun j hj => hpre j (by simp [hj])) hi]

/-- If no index can produce a given error, neither can the loop. -/
lemma forFrames_ne_error {lines : List String} {na : Nat} (e : ParseError) :
    ∀ (idxs : List Nat),
    (∀ i ∈ idxs, processFrame lines na i ≠ .error e) →
    forFrames lines na idxs ≠ .error e := by
  intro idxs
  induction idxs with
  | nil => intro h hcontra; exact Except.noConfusion hcontra
  | cons i rest ih =>
    intro h hcontra
    simp only [forFrames] at hcontra
    cases hp : processFrame lines na i with
    | error e2 =>
      rw [hp] at hcontra
      exact h i (by simp) ((Except.error.inj hcontra) ▸ hp)
    | ok fr =>
      rw [hp] at hcontra
      dsimp only at hcontra
      cases hrest : forFrames lines na rest with
      | error e2 =>
        rw [hrest] at hcontra
        exact ih (fun j hj => h j (by simp [hj])) ((Except.error.inj hcontra) ▸ hrest)
      | ok frs =>
        rw [hrest] at hcontra
        exact Except.noConfusion hcontra

/-- Staged unfolding of `parse_xyz_file` once the format check, the
header read and the atom-count cast have succeeded. -/
lemma parse_xyz_file_stages (filename : String) (lines : List String)
    (line0 : String) (naI : Int)
    (hfmt : endswith filename ".xyz" = true)
    (hhead : lines.head? = some line0)
    (hcast : cast_positive_int line0 = .ok naI) :
    parse_xyz_file filename lines =
      match cast_positive_int_rat ((lines.length : ℚ) / ((naI : ℚ) + 2)) with
      | .error e => .error (.castError e)
      | .ok nfI =>
        match parse_atom_labels naI.toNat ((lines.drop 2).take naI.toNat) with
        | .error e => .error e
        | .ok labs =>
          match forFrames lines naI.toNat (List.range nfI.toNat) with
          | .error e => .error e
          | .ok frames => .ok ⟨naI.toNat, nfI.toNat, labs, frames⟩ := by
  simp only [parse_xyz_file]
  rw [if_neg (by simp [hfmt]), hhead]
  dsimp only
  rw [hcast]
  dsimp only
  simp only [Nat.cast_ofNat]

/-- C6.  With the header cast done, a file length not divisible by
`atomCount + 2` makes the frame-count division non-integral, so the parse
aborts with the validator error `NotIntegral` raised on the quotient; a
quotient of exactly zero is flagged by the same validator as `ZeroValue`
(the empty-trajectory case). -/
theorem frame_count_division_check (filename : String) (lines : List String)
    (line0 : String) (naI : Int)
    (hfmt : endswith filename ".xyz" = true)
    (hhead : lines.head? = some line0)
    (hcast : cast_positive_int line0 = .ok naI)
    (hndvd : ¬ (naI.toNat + 2) ∣ lines.length) :
    parse_xyz_file filename lines = .error (.castError .notIntegral) ∧
    cast_positive_int_rat 0 = .error .zeroValue := by
  have hna := cast_positive_int_pos hcast
  have e1 : ((naI.toNat : Int)) = naI := Int.toNat_of_nonneg (by omega)
  have hdenom : ((naI.toNat + 2 : Nat) : ℚ) = (naI : ℚ) + 2 := by
    have h2 : ((naI.toNat : Int) : ℚ) = (naI : ℚ) := by rw [e1]
    push_cast at h2
    push_cast
    linarith
  have hni : cast_positive_int_rat ((lines.length : ℚ) / ((naI : ℚ) + 2)) =
      .error .notIntegral := by
    apply cast_positive_int_rat_not_integral
    rw [← hdenom]
    exact no_int_quotient (by omega) hndvd
  rw [parse_xyz_file_stages filename lines line0 naI hfmt hhead hcast, hni]
  exact ⟨rfl, by with_unfolding_all rfl⟩

/-- Witness for C6: a four-line file declaring one atom (so a block size
of three) fails with the non-integral frame count. -/
theorem frame_count_division_check_witness :
    parse_xyz_file "t.xyz" ["1", "c", "H 0 0 0", "x"] =
      .error (.castError .notIntegral) ∧
    cast_positive_int_rat 0 = .error .zeroValue :=
  frame_count_division_check "t.xyz" ["1", "c", "H 0 0 0", "x"] "1" 1
    (by with_unfolding_all rfl) rfl (by with_unfolding_all rfl) (by decide)

/-- C4.  Any successfully parsed file satisfies the shape invariants:
`3N` axis labels, one frame vector per frame each of length `3N`, and the
frame at index `i` is parsed from the body of the `i`-th
`(atomCount + 2)`-line block of the file. -/
theorem parse_xyz_file_shape (filename : String) (lines : List String) (d : XYZData)
    (h : parse_xyz_file filename lines = .ok d) :
    d.atom_labels.length = 3 * d.num_atoms ∧
    d.frames.length = d.num_frames ∧
    (∀ f ∈ d.frames, f.length = 3 * d.num_atoms) ∧
    (∀ i (hi : i < d.frames.length),
      parse_one_frame ((lines.drop (i * (d.num_atoms + 2) + 2)).take d.num_atoms) =
        .ok (d.frames.get ⟨i, hi⟩)) := by
  by_cases hfmt : endswith filename ".xyz" = true
  case neg =>
    exfalso
    simp only [parse_xyz_file] at h
    rw [if_pos (by simpa using hfmt)] at h
    exact Except.noConfusion h
  case pos =>
  cases hhead : lines.head? with
  | none =>
    exfalso
    simp only [parse_xyz_file] at h
    rw [if_neg (by simp [hfmt]), hhead] at h
    exact Except.noConfusion h
  | some line0 =>
  cases hcast : cast_positive_int line0 with
  | error e =>
    exfalso
    simp only [parse_xyz_file] at h
    rw [if_neg (by simp [hfmt]), hhead] at h
    dsimp only at h
    rw [hcast] at h
    exact Except.noConfusion h
  | ok naI =>
  rw [parse_xyz_file_stages filename lines line0 naI hfmt hhead hcast] at h
  cases hdiv : cast_positive_int_rat ((lines.length : ℚ) / ((naI : ℚ) + 2)) with
  | error e => rw [hdiv] at h; exact Except.noConfusion h
  | ok nfI =>
  rw [hdiv] at h
  dsimp only at h
  cases hlab : parse_atom_labels naI.toNat ((lines.drop 2).take naI.toNat) with
  | error e => rw [hlab] at h; exact Except.noConfusion h
  | ok labs =>
  rw [hlab] at h
  dsimp only at h
  cases hff : forFrames lines naI.toNat (List.range nfI.toNat) with
  | error e => rw [hff] at h; exact Except.noConfusion h
  | ok frames =>
  rw [hff] at h
  obtain rfl := (Except.ok.inj h).symm
  obtain ⟨hflen, hfget⟩ := forFrames_ok (List.range nfI.toNat) frames hff
  refine ⟨?_, ?_, ?_, ?_⟩
  · have := parse_atom_labels_ok_length hlab
    simpa [Nat.mul_comm] using this
  · simpa using hflen
  · intro f hf
    obtain ⟨⟨j, hj⟩, rfl⟩ := List.mem_iff_get.mp hf
    have hj2 : j < (List.range nfI.toNat).length := by
      rw [← hflen]; exact hj
    have hpf := hfget j hj2 hj
    rw [List.get_range] at hpf
    obtain ⟨hl, _, _, _, hlen3, _⟩ := processFrame_ok hpf
    dsimp only at hlen3 ⊢
    omega
  · intro i hi
    have hi2 : i < (List.range nfI.toNat).length := by
      rw [← hflen]; exact hi
    have hpf := hfget i hi2 hi
    rw [List.get_range] at hpf
    obtain ⟨hl, hget, hcast2, hpof, _, _⟩ := processFrame_ok hpf
    rw [slice_arith i naI.toNat] at hpof
    exact hpof

/-- Witness for C4 on a one-atom one-frame file. -/
theorem parse_xyz_file_shape_witness :
    parse_xyz_file "t.xyz" ["1", "c", "H 0 0 0"] =
      .ok ⟨1, 1, ["H0_x", "H0_y", "H0_z"], [[0, 0, 0]]⟩ ∧
    (XYZData.mk 1 1 ["H0_x", "H0_y", "H0_z"] [[0, 0, 0]]).atom_labels.length =
      3 * (XYZData.mk 1 1 ["H0_x", "H0_y", "H0_z"] [[0, 0, 0]]).num_atoms ∧
    (XYZData.mk 1 1 ["H0_x", "H0_y", "H0_z"] [[0, 0, 0]]).frames.length =
      (XYZData.mk 1 1 ["H0_x", "H0_y", "H0_z"] [[0, 0, 0]]).num_frames := by
  have h : parse_xyz_file "t.xyz" ["1", "c", "H 0 0 0"] =
      .ok ⟨1, 1, ["H0_x", "H0_y", "H0_z"], [[0, 0, 0]]⟩ := by
    with_unfolding_all rfl
  have hs := parse_xyz_file_shape "t.xyz" ["1", "c", "H 0 0 0"] _ h
  exact ⟨h, hs.1, hs.2.1⟩

/-- C5.  When the parse reaches frame `i` and the header line of that frame
line (absolute index `i * (atomCount + 2)`) validates to `got`, the whole
parse aborts with `FrameAtomCountMismatch` citing that line index, the
expected count and `got`, exactly when `got` differs from the
trajectory-level atom count; when it agrees, frame `i` never reports a
mismatch. -/
theorem frame_header_mismatch (filename : String) (lines : List String)
    (line0 hl : String) (naI nfI got : Int) (i : Nat)
    (hfmt : endswith filename ".xyz" = true)
    (hhead : lines.head? = some line0)
    (hcast : cast_positive_int line0 = .ok naI)
    (hdiv : cast_positive_int_rat ((lines.length : ℚ) / ((naI : ℚ) + 2)) = .ok nfI)
    (hlab : ∃ labs, parse_atom_labels naI.toNat ((lines.drop 2).take naI.toNat) = .ok labs)
    (hi : i < nfI.toNat)
    (hprev : ∀ j, j < i → ∃ fr, processFrame lines naI.toNat j = .ok fr)
    (hget : lines.get? (i * (naI.toNat + 2)) = some hl)
    (hgot : cast_positive_int hl = .ok got) :
    (got ≠ naI → parse_xyz_file filename lines =
      .error (.frameAtomCountMismatch (i * (naI.toNat + 2)) naI got)) ∧
    (got = naI → ∀ idx e g, processFrame lines naI.toNat i ≠
      .error (.frameAtomCountMismatch idx e g)) := by
  have hna := cast_positive_int_pos hcast
  have e1 : ((naI.toNat : Int)) = naI := Int.toNat_of_nonneg (by omega)
  obtain ⟨labs, hlabs⟩ := hlab
  constructor
  · intro hne
    have hmm := (processFrame_mismatch hget hgot).1 (by rw [e1]; exact hne)
    rw [e1] at hmm
    obtain ⟨post, hsplit⟩ := range_split nfI.toNat i hi
    rw [parse_xyz_file_stages filename lines line0 naI hfmt hhead hcast, hdiv]
    dsimp only
    rw [hlabs]
    dsimp only
    rw [hsplit, forFrames_append_error (List.range i) i post _
      (fun j hj => hprev j (List.mem_range.mp hj)) hmm]
  · intro heq idx e g
    exact (processFrame_mismatch hget hgot).2 (by rw [e1]; exact heq) idx e g

/-- Witness for C5: a two-frame one-atom file whose second frame header
declares two atoms fails citing line 3 with expected 1, got 2. -/
theorem frame_header_mismatch_witness :
    parse_xyz_file "t.xyz" ["1", "c", "H 0 0 0", "2", "c", "H 1 1 1"] =
      .error (.frameAtomCountMismatch 3 1 2) :=
  (frame_header_mismatch "t.xyz" ["1", "c", "H 0 0 0", "2", "c", "H 1 1 1"]
    "1" "2" 1 2 2 1
    (by with_unfolding_all rfl) rfl (by with_unfolding_all rfl)
    (by with_unfolding_all rfl)
    ⟨["H0_x", "H0_y", "H0_z"], by with_unfolding_all rfl⟩
    (by decide)
    (fun j hj => by
      have hj0 : j = 0 := by omega
      subst hj0
      exact ⟨[0, 0, 0], by with_unfolding_all rfl⟩)
    (by with_unfolding_all rfl) (by with_unfolding_all rfl)).1 (by decide)

/-- A parse never surfaces the truncated-frame assertion: whenever the
frame loop runs, the exact-division check already forced the file length
to factor, so every body slice has exactly `num_atoms` lines. -/
lemma parse_xyz_file_ne_truncated (filename : String) (lines : List String) :
    parse_xyz_file filename lines ≠ .error .truncatedFrame := by
  intro h
  by_cases hfmt : endswith filename ".xyz" = true
  case neg =>
    simp only [parse_xyz_file] at h
    rw [if_pos (by simpa using hfmt)] at h
    exact absurd (Except.error.inj h) (by simp)
  case pos =>
  cases hhead : lines.head? with
  | none =>
    simp only [parse_xyz_file] at h
    rw [if_neg (by simp [hfmt]), hhead] at h
    exact absurd (Except.error.inj h) (by simp)
  | some line0 =>
  cases hcast : cast_positive_int line0 with
  | error e =>
    simp only [parse_xyz_file] at h
    rw [if_neg (by simp [hfmt]), hhead] at h
    dsimp only at h
    rw [hcast] at h
    exact absurd (Except.error.inj h) (by simp)
  | ok naI =>
  rw [parse_xyz_file_stages filename lines line0 naI hfmt hhead hcast] at h
  cases hdiv : cast_positive_int_rat ((lines.length : ℚ) / ((naI : ℚ) + 2)) with
  | error e =>
    rw [hdiv] at h
    exact absurd (Except.error.inj h) (by simp)
  | ok nfI =>
  rw [hdiv] at h
  dsimp only at h
  cases hlab : parse_atom_labels naI.toNat ((lines.drop 2).take naI.toNat) with
  | error e =>
    rw [hlab] at h
    rcases parse_atom_labels_error hlab with rfl | rfl <;>
      exact absurd (Except.error.inj h) (by simp)
  | ok labs =>
  rw [hlab] at h
  dsimp only at h
  have hna := cast_positive_int_pos hcast
  have hL := length_eq_of_casts hna hdiv
  cases hff : forFrames lines naI.toNat (List.range nfI.toNat) with
  | error e =>
    rw [hff] at h
    obtain rfl := Except.error.inj h
    refine forFrames_ne_error _ _ ?_ hff
    intro i hi
    exact processFrame_ne_truncated (frame_slice_length hL (List.mem_range.mp hi))
  | ok frames =>
    rw [hff] at h
    exact Except.noConfusion h

/-- C9.  Under the exact-division precondition, every frame-body slice
holds exactly `num_atoms` lines, so the `len(frame_lines) == num_atoms`
assertion always holds and no parse ever fails with `TruncatedFrame`;
moreover the assertion runs only after the frame is parsed and stored,
as witnessed by a short slice failing at the numpy row assignment
(`broadcastError`) rather than with `TruncatedFrame`. -/
theorem truncated_frame_unreachable (filename : String) (lines : List String)
    (na F i : Nat) (hL : lines.length = F * (na + 2)) (hi : i < F) :
    ((lines.drop (i * (na + 2) + 2)).take
      ((i + 1) * (na + 2) - (i * (na + 2) + 2))).length = na ∧
    parse_xyz_file filename lines ≠ .error .truncatedFrame ∧
    processFrame ["2", "comment", "C 1 2 3"] 2 0 = .error .broadcastError :=
  ⟨frame_slice_length hL hi, parse_xyz_file_ne_truncated filename lines,
   by with_unfolding_all rfl⟩

/-- Witness for C9 on a minimal three-line single-frame layout. -/
theorem truncated_frame_unreachable_witness :
    (((["a", "b", "c"] : List String).drop (0 * (1 + 2) + 2)).take
      ((0 + 1) * (1 + 2) - (0 * (1 + 2) + 2))).length = 1 ∧
    parse_xyz_file "f" ["a", "b", "c"] ≠ .error .truncatedFrame ∧
    processFrame ["2", "comment", "C 1 2 3"] 2 0 = .error .broadcastError :=
  truncated_frame_unreachable "f" ["a", "b", "c"] 1 1 0 (by decide) (by decide)

end Preprocessing
